import Mathlib

/-!
Verification of the archival & pruning subsystem of bsc-reth.

The definitions below are a shallow embedding of the pruner
(`crates/prune/prune/src/pruner.rs`), the prune segment set builder
(`crates/prune/prune/src/segments/set.rs`) and the static-file service
(`crates/engine/tree/src/static_files.rs`). Block numbers, transaction
numbers and counts are modelled as `Nat` (the source uses `u64`/`usize`;
none of the embedded arithmetic can overflow a `u64` on the inputs the
theorems quantify over, and the source's `saturating_sub` is `Nat`
subtraction). Parts of the repository that the sources do not include
(`reth_prune_types`, `reth_static_file_types`, the provider) are modelled
from the specification and marked as such in their doc comments.
-/

namespace BscReth

/-- Finished height of all ExExs as read from the watch channel
(`reth_exex_types::FinishedExExHeight`). -/
inductive FinishedExExHeight where
  | noExExs
  | notReady
  | height (h : Nat)
deriving Repr, DecidableEq

/-- Prune mode variants (`reth_prune_types::PruneMode`): `Full`,
`Distance(n)` or `Before(block)`. -/
inductive PruneMode where
  | full
  | distance (n : Nat)
  | beforeBlock (b : Nat)
deriving Repr, DecidableEq

/-- Modelled from the spec: the reasons carried by `HasMoreData`
(`reth_prune_types::PruneProgress` is not part of the sources; the spec's
data model lists these three reasons). -/
inductive PruneInterruptReason where
  | deletedEntriesLimitReached
  | timeLimitReached
  | endOfSegment
deriving Repr, DecidableEq

/-- Progress of a prune invocation: finished, or interrupted with more data
left to prune. -/
inductive PruneProgress where
  | finished
  | hasMoreData (reason : PruneInterruptReason)
deriving Repr, DecidableEq

/-- Modelled from the spec: the prune limiter
(`reth_prune_types::PruneLimiter` is not part of the sources). It has a
deleted-entries coordinate and a deadline coordinate; `timeLimitReached`
stands for the fact that the deadline has passed. A fresh limiter starts
with no limits, and in this pure embedding the clock never advances during
a run, so a run's time coordinate stays `false`. -/
structure PruneLimiter where
  deletedEntriesLimit : Option Nat := none
  deletedEntriesCount : Nat := 0
  timeLimitReached : Bool := false
deriving Repr, DecidableEq

/-- Seeds the deleted-entries coordinate of the limiter. -/
def PruneLimiter.setDeletedEntriesLimit (l : PruneLimiter) (limit : Nat) :
    PruneLimiter :=
  { l with deletedEntriesLimit := some limit }

/-- Modelled from the spec: the limit is reached iff either coordinate is
exhausted. -/
def PruneLimiter.isLimitReached (l : PruneLimiter) : Bool :=
  (match l.deletedEntriesLimit with
    | some limit => decide (limit ≤ l.deletedEntriesCount)
    | none => false) || l.timeLimitReached

/-- Sole mutator of the deleted-entries count. -/
def PruneLimiter.incrementDeletedEntriesCountBy (l : PruneLimiter) (n : Nat) :
    PruneLimiter :=
  { l with deletedEntriesCount := l.deletedEntriesCount + n }

/-- Remaining deleted-entries budget of a limiter snapshot. -/
def PruneLimiter.deletedEntriesRemaining (l : PruneLimiter) : Nat :=
  match l.deletedEntriesLimit with
  | some limit => limit - l.deletedEntriesCount
  | none => 0

/-- Checkpoint produced by a segment's `prune` call
(`SegmentOutputCheckpoint`). -/
structure SegmentOutputCheckpoint where
  blockNumber : Option Nat := none
  txNumber : Option Nat := none
deriving Repr, DecidableEq

/-- Persisted prune checkpoint (`reth_prune_types::PruneCheckpoint`). -/
structure PruneCheckpoint where
  blockNumber : Option Nat
  txNumber : Option Nat
  pruneMode : PruneMode
deriving Repr, DecidableEq

/-- Conversion `SegmentOutputCheckpoint::as_prune_checkpoint`. -/
def SegmentOutputCheckpoint.asPruneCheckpoint (c : SegmentOutputCheckpoint)
    (m : PruneMode) : PruneCheckpoint :=
  { blockNumber := c.blockNumber, txNumber := c.txNumber, pruneMode := m }

/-- Output of one segment's `prune` call (`SegmentOutput`). -/
structure SegmentOutput where
  progress : PruneProgress
  pruned : Nat
  checkpoint : Option SegmentOutputCheckpoint
deriving Repr, DecidableEq

/-- A prune segment as seen by the pruner loop: the boxed `Segment` trait
object. The segment implementations are not part of the sources, so
`pruneTargetBlock` (the composition
`mode().prune_target_block(tip, segment(), purpose())`, applied only when
`mode()` is `Some`) and `prune` are abstract function fields; `id` models
the stable `PruneSegment` identity. -/
structure Segment where
  id : Nat
  mode : Option PruneMode
  pruneTargetBlock : Nat → Option (Nat × PruneMode)
  prune : Option PruneCheckpoint → Nat → PruneLimiter → SegmentOutput

/-- Overall output of a pruner run (`reth_prune_types::PrunerOutput`). -/
structure PrunerOutput where
  progress : PruneProgress
  segments : List (Nat × SegmentOutput)
deriving Repr, DecidableEq

/-- Prune checkpoints stored by the provider, keyed by segment identity;
the most recent save for a segment is the first matching entry. -/
abbrev CheckpointStore := List (Nat × PruneCheckpoint)

/-- Read of `provider.get_prune_checkpoint(segment)`. -/
def getPruneCheckpoint (cps : CheckpointStore) (id : Nat) :
    Option PruneCheckpoint :=
  cps.lookup id

/-- Write of `segment.save_checkpoint(provider, checkpoint)`. -/
def saveCheckpoint (cps : CheckpointStore) (id : Nat) (cp : PruneCheckpoint) :
    CheckpointStore :=
  (id, cp) :: cps

/-- Mutable state of the `Pruner::prune_segments` loop: the provider's
checkpoints, the accumulated stats, the total pruned count, the overall
progress, the per-segment outputs and the authoritative limiter. -/
structure PruneSegmentsState where
  checkpoints : CheckpointStore
  stats : List (Nat × Nat × PruneProgress)
  pruned : Nat
  progress : PruneProgress
  outSegments : List (Nat × SegmentOutput)
  limiter : PruneLimiter

/-- Body of the `Pruner::prune_segments` loop for one segment that yielded
a prune target: load the previous checkpoint, prune against a snapshot of
the limiter, save the produced checkpoint, overwrite the overall progress
with the segment's progress, record the segment's output and, when it
pruned anything, charge the limiter and record stats. -/
def pruneSegmentStep (st : PruneSegmentsState) (segment : Segment)
    (toBlock : Nat) (pruneMode : PruneMode) : PruneSegmentsState :=
  let previousCheckpoint := getPruneCheckpoint st.checkpoints segment.id
  let segmentOutput := segment.prune previousCheckpoint toBlock st.limiter
  let checkpoints :=
    match segmentOutput.checkpoint with
    | some checkpoint =>
        saveCheckpoint st.checkpoints segment.id
          (checkpoint.asPruneCheckpoint pruneMode)
    | none => st.checkpoints
  let st1 : PruneSegmentsState :=
    { st with
      checkpoints := checkpoints
      progress := segmentOutput.progress
      outSegments := st.outSegments ++ [(segment.id, segmentOutput)] }
  if 0 < segmentOutput.pruned then
    { st1 with
      limiter := st1.limiter.incrementDeletedEntriesCountBy segmentOutput.pruned
      pruned := st1.pruned + segmentOutput.pruned
      stats := st1.stats ++
        [(segment.id, segmentOutput.pruned, segmentOutput.progress)] }
  else st1

/-- Embedding of the loop of `Pruner::prune_segments`: iterate the segments
in order, breaking once the limiter is exhausted, skipping segments without
a prune target and running `pruneSegmentStep` on the rest. -/
def pruneSegmentsLoop (tipBlockNumber : Nat) :
    List Segment → PruneSegmentsState → PruneSegmentsState
  | [], st => st
  | segment :: rest, st =>
    if st.limiter.isLimitReached then st
    else
      match segment.mode.bind (fun _ => segment.pruneTargetBlock tipBlockNumber) with
      | none => pruneSegmentsLoop tipBlockNumber rest st
      | some (toBlock, pruneMode) =>
          pruneSegmentsLoop tipBlockNumber rest
            (pruneSegmentStep st segment toBlock pruneMode)

/-- Embedding of `Pruner::adjust_tip_block_number_to_finished_exex_height`. -/
def adjustTipBlockNumberToFinishedExExHeight
    (finishedExExHeight : FinishedExExHeight) (tipBlockNumber : Nat) :
    Option Nat :=
  match finishedExExHeight with
  | .noExExs => some tipBlockNumber
  | .notReady => none
  | .height finishedExExHeight => some finishedExExHeight

/-- Embedding of `Pruner::is_pruning_needed`: adjust the tip for the
finished ExEx height (false when not ready), then compare the saturating
difference from the previous tip against the minimum interval. -/
def isPruningNeeded (finishedExExHeight : FinishedExExHeight)
    (previousTipBlockNumber : Option Nat) (minBlockInterval : Nat)
    (tipBlockNumber : Nat) : Bool :=
  match adjustTipBlockNumberToFinishedExExHeight finishedExExHeight tipBlockNumber with
  | none => false
  | some tipBlockNumber =>
      decide (minBlockInterval ≤ tipBlockNumber - previousTipBlockNumber.getD 0)

/-- Modelled from the spec: on-disk contents of the sidecar static-file
tier, one entry per partition keyed by the start of its fixed block range;
the main file, the `.conf` descriptor and the `.off` index are tracked
separately (the static-file path helpers are not part of the sources). -/
structure SidecarFiles where
  main : Finset Nat
  conf : Finset Nat
  off : Finset Nat
deriving DecidableEq

/-- Embedding of `delete_static_files`: remove the main file, the `.conf`
file and the `.off` file; a missing file is only logged. -/
def deleteStaticFiles (fs : SidecarFiles) (rangeStart : Nat) : SidecarFiles :=
  { main := fs.main.erase rangeStart
    conf := fs.conf.erase rangeStart
    off := fs.off.erase rangeStart }

/-- Modelled from the spec: `find_fixed_range` (from
`reth_static_file_types`, not part of the sources) maps a block number to
the fixed-width partition containing it; `w` is the partition width in
blocks and this returns the start of the range. -/
def findFixedRangeStart (w blockNumber : Nat) : Nat :=
  blockNumber / w * w

/-- Embedding of the `while range_start > 0` loop of
`Pruner::prune_ancient_sidecars`: walk backwards one partition at a time,
deleting each partition whose main file exists and stopping at the first
gap. -/
def pruneAncientSidecarsLoop (w rangeStart : Nat) (fs : SidecarFiles) :
    SidecarFiles :=
  if rangeStart = 0 then fs
  else
    if findFixedRangeStart w (rangeStart - 1) ∈ fs.main then
      pruneAncientSidecarsLoop w (findFixedRangeStart w (rangeStart - 1))
        (deleteStaticFiles fs (findFixedRangeStart w (rangeStart - 1)))
    else fs
termination_by rangeStart
decreasing_by
  have h1 : (rangeStart - 1) / w * w ≤ rangeStart - 1 := Nat.div_mul_le_self _ _
  simp only [findFixedRangeStart]
  omega

/-- Embedding of `Pruner::prune_ancient_sidecars` over the sidecar file
set: a no-op when `recentSidecarsKeptBlocks` is zero or when the fixed
range of `tip - recentSidecarsKeptBlocks` starts at zero; otherwise walk
backwards from the partition below that range. -/
def pruneAncientSidecars (recentSidecarsKeptBlocks w tipBlockNumber : Nat)
    (fs : SidecarFiles) : SidecarFiles :=
  if recentSidecarsKeptBlocks = 0 then fs
  else
    if findFixedRangeStart w (tipBlockNumber - recentSidecarsKeptBlocks) = 0 then fs
    else
      pruneAncientSidecarsLoop w
        (findFixedRangeStart w (tipBlockNumber - recentSidecarsKeptBlocks)) fs

/-- Static configuration of the pruner: the fields of `Pruner` that a run
does not change. `blocksPerFile` parameterises the spec-modelled
`find_fixed_range`. The optional timeout only seeds the limiter's deadline
coordinate, which in this pure embedding never fires during a run, so it is
omitted. -/
structure PrunerConfig where
  segments : List Segment
  minBlockInterval : Nat
  deleteLimit : Nat
  recentSidecarsKeptBlocks : Nat
  blocksPerFile : Nat

/-- Mutable state a pruner run touches: the stored previous tip, the
provider's prune checkpoints and the on-disk sidecar partitions. -/
structure PrunerState where
  previousTipBlockNumber : Option Nat
  checkpoints : CheckpointStore
  files : SidecarFiles
deriving DecidableEq

/-- Embedding of `Pruner::run_with_provider` (which `Pruner::run` wraps):
adjust the tip to the finished ExEx height, short-circuit when not ready
and at tip zero, prune the segments under a fresh limiter seeded with the
delete limit, sweep ancient sidecars, and record the adjusted tip as the
previous tip. -/
def runWithProvider (cfg : PrunerConfig) (st : PrunerState)
    (finishedExExHeight : FinishedExExHeight) (tipBlockNumber : Nat) :
    PrunerState × PrunerOutput :=
  match adjustTipBlockNumberToFinishedExExHeight finishedExExHeight tipBlockNumber with
  | none => (st, { progress := .finished, segments := [] })
  | some tipBlockNumber =>
    if tipBlockNumber = 0 then
      ({ st with previousTipBlockNumber := some tipBlockNumber },
        { progress := .finished, segments := [] })
    else
      let limiter := PruneLimiter.setDeletedEntriesLimit {} cfg.deleteLimit
      let res := pruneSegmentsLoop tipBlockNumber cfg.segments
        { checkpoints := st.checkpoints, stats := [], pruned := 0,
          progress := .finished, outSegments := [], limiter := limiter }
      let files := pruneAncientSidecars cfg.recentSidecarsKeptBlocks
        cfg.blocksPerFile tipBlockNumber st.files
      ({ previousTipBlockNumber := some tipBlockNumber,
         checkpoints := res.checkpoints, files := files },
        { progress := res.progress, segments := res.outSegments })

/-- Static-file segment kinds (`StaticFileSegment`). -/
inductive StaticFileSegment where
  | headers
  | transactions
  | receipts
  | sidecars
deriving Repr, DecidableEq

/-- Sealed block as consumed by `log_transactions`: number, hash, body
transactions and optional sidecars; transaction and sidecar payloads are
abstract. -/
structure SealedBlock where
  number : Nat
  hash : Nat
  body : List Nat
  sidecars : Option (List Nat)
deriving Repr, DecidableEq

/-- Executed block as consumed by `write_execution_data`: its number and
the receipts of its execution outcome, one entry per transaction with
`none` for a pruned receipt (the source asserts exactly one receipt vector
per executed block). -/
structure ExecutedBlock where
  number : Nat
  receipts : List (Option Nat)
deriving Repr, DecidableEq

/-- Operations performed on the static-file writers, in program order. -/
inductive WriterEvent where
  | appendHeader (block : Nat) (td : Nat) (hash : Nat)
  | appendTransaction (txNumber : Nat) (tx : Nat)
  | incrementBlock (segment : StaticFileSegment) (block : Nat)
  | appendSidecars (block : Nat) (hash : Nat)
  | appendReceipt (txNumber : Nat) (receipt : Nat)
  | commit (segment : StaticFileSegment)
deriving Repr, DecidableEq

/-- Follow-up actions the static-file service sends to the database
service (`DatabaseAction`), reply channels elided. -/
inductive DatabaseAction where
  | updateTransactionMeta (block : Nat)
  | saveBlocks (blocks : List ExecutedBlock)
deriving Repr, DecidableEq

/-- Transaction append events for `body` at sequential transaction numbers
starting from `txNumber`. -/
def appendTransactionEvents : Nat → List Nat → List WriterEvent
  | _, [] => []
  | txNumber, tx :: rest =>
      .appendTransaction txNumber tx :: appendTransactionEvents (txNumber + 1) rest

/-- Embedding of `StaticFileService::log_transactions`: the writer events
it performs in order, and the database action that actually reaches the
database service (`sendOk` tells whether the channel send succeeds; its
result is discarded by the source, so the function returns `ok` either
way). -/
def logTransactions (block : SealedBlock) (startTxNumber td : Nat)
    (sendOk : Bool) : Except Unit (List WriterEvent × Option DatabaseAction) :=
  let events :=
    [WriterEvent.appendHeader block.number td block.hash] ++
    appendTransactionEvents startTxNumber block.body ++
    [WriterEvent.incrementBlock .transactions block.number,
      WriterEvent.appendSidecars block.number block.hash,
      WriterEvent.commit .transactions,
      WriterEvent.commit .headers,
      WriterEvent.commit .sidecars]
  let sent :=
    if sendOk then some (DatabaseAction.updateTransactionMeta block.number)
    else none
  Except.ok (events, sent)

/-- Receipt append events for one block's receipts starting at receipt
number `current`: a `none` receipt is skipped but still advances the
receipt number. Returns the events together with the next receipt number. -/
def appendReceiptEvents : Nat → List (Option Nat) → List WriterEvent × Nat
  | current, [] => ([], current)
  | current, maybeReceipt :: rest =>
      let tail := appendReceiptEvents (current + 1) rest
      match maybeReceipt with
      | some receipt => (.appendReceipt current receipt :: tail.1, tail.2)
      | none => tail

/-- Per-block receipts loop of `write_execution_data`: append each block's
receipts, then increment the Receipts block, advancing both counters. -/
def writeReceiptsEvents : Nat → Nat → List ExecutedBlock → List WriterEvent
  | _, _, [] => []
  | currentReceipt, currentBlock, b :: rest =>
      let blockEvents := appendReceiptEvents currentReceipt b.receipts
      blockEvents.1 ++ [.incrementBlock .receipts currentBlock] ++
        writeReceiptsEvents blockEvents.2 (currentBlock + 1) rest

/-- Embedding of `StaticFileService::write_execution_data`: an empty block
list returns immediately; otherwise append the receipts of every block
starting after `highestReceipt` (the highest receipt transaction number
already in the static files, `none` on the first write), commit Receipts,
and attempt to send `SaveBlocks` (the send result is discarded). -/
def writeExecutionData (blocks : List ExecutedBlock) (highestReceipt : Option Nat)
    (sendOk : Bool) : Except Unit (List WriterEvent × Option DatabaseAction) :=
  match blocks with
  | [] => Except.ok ([], none)
  | first :: rest =>
      let currentReceipt := (highestReceipt.map (· + 1)).getD 0
      let events :=
        writeReceiptsEvents currentReceipt first.number (first :: rest) ++
          [WriterEvent.commit .receipts]
      let sent :=
        if sendOk then some (DatabaseAction.saveBlocks (first :: rest)) else none
      Except.ok (events, sent)

/-- Contents of the static files relevant to `remove_blocks_above`, for a
chain whose block `b` holds `txCounts.get b` transactions: headers exist
for blocks `0..=headersHighest`, sidecars for `0..=sidecarsHighest`, and
the transactions and receipts segments hold the entries numbered
`0..txLen` and `0..receiptLen`. -/
structure StaticFilesStore where
  txCounts : List Nat
  headersHighest : Nat
  sidecarsHighest : Nat
  txLen : Nat
  receiptLen : Nat
deriving Repr, DecidableEq

/-- First transaction number of block `b`: the total transaction count of
all earlier blocks. -/
def firstTxNumber (txCounts : List Nat) (b : Nat) : Nat :=
  (txCounts.take b).sum

/-- Modelled from the spec: `transaction_range_by_block_range` on the
database's transaction-range index returns the inclusive transaction-number
range of the block range, from the first transaction of `lo` to the last
transaction of `hi`. -/
def transactionRangeByBlockRange (txCounts : List Nat) (lo hi : Nat) :
    Nat × Nat :=
  (firstTxNumber txCounts lo, firstTxNumber txCounts (hi + 1) - 1)

/-- Embedding of `StaticFileService::remove_blocks_above`: read the highest
header block, compute `total_txs` as the saturating difference of the
endpoints of the transaction range of `blockNum..=highest`, truncate
receipts and transactions by `total_txs` entries, headers by
`highest - blockNum` blocks and sidecars by `sidecarsHighest - blockNum`
blocks. The truncation semantics of the writers (`prune_receipts`,
`prune_transactions`, `prune_headers`, `prune_sidecars` drop the last N
entries of their segment) is modelled from the spec. -/
def removeBlocksAbove (st : StaticFilesStore) (blockNum : Nat) :
    StaticFilesStore :=
  let highestStaticFileBlock := st.headersHighest
  let txRange := transactionRangeByBlockRange st.txCounts blockNum highestStaticFileBlock
  let totalTxs := txRange.2 - txRange.1
  { st with
    receiptLen := st.receiptLen - totalTxs
    txLen := st.txLen - totalTxs
    headersHighest :=
      st.headersHighest - (highestStaticFileBlock - blockNum)
    sidecarsHighest :=
      st.sidecarsHighest - (st.sidecarsHighest - blockNum) }

/-- Prune segment kinds produced by the segment set builder, each carrying
its configuration. -/
inductive SegmentKind where
  | staticFileHeaders
  | staticFileTransactions
  | staticFileReceipts
  | staticFileSidecars
  | accountHistory (mode : PruneMode)
  | storageHistory (mode : PruneMode)
  | userReceipts (mode : PruneMode)
  | receiptsByLogs (filter : List (Nat × PruneMode))
  | transactionLookup (mode : PruneMode)
  | senderRecovery (mode : PruneMode)
deriving Repr, DecidableEq

/-- Retention configuration (`reth_prune_types::PruneModes`); the
receipts-log-filter map is modelled as an association list from (abstract)
addresses to prune modes. -/
structure PruneModes where
  senderRecovery : Option PruneMode
  transactionLookup : Option PruneMode
  receipts : Option PruneMode
  accountHistory : Option PruneMode
  storageHistory : Option PruneMode
  receiptsLogFilter : List (Nat × PruneMode)
deriving Repr, DecidableEq

/-- Ordered collection built by `SegmentSet`. -/
structure SegmentSet where
  inner : List SegmentKind
deriving Repr, DecidableEq

/-- Embedding of `SegmentSet::segment`: push a segment. -/
def SegmentSet.segment (s : SegmentSet) (k : SegmentKind) : SegmentSet :=
  { inner := s.inner ++ [k] }

/-- Embedding of `SegmentSet::segment_opt`: push a segment when present. -/
def SegmentSet.segmentOpt (s : SegmentSet) : Option SegmentKind → SegmentSet
  | some k => s.segment k
  | none => s

/-- Embedding of `SegmentSet::from_components`. -/
def SegmentSet.fromComponents (pruneModes : PruneModes) : SegmentSet :=
  ({ inner := [] } : SegmentSet)
    |>.segment .staticFileHeaders
    |>.segment .staticFileTransactions
    |>.segment .staticFileReceipts
    |>.segment .staticFileSidecars
    |>.segmentOpt (pruneModes.accountHistory.map SegmentKind.accountHistory)
    |>.segmentOpt (pruneModes.storageHistory.map SegmentKind.storageHistory)
    |>.segmentOpt (pruneModes.receipts.map SegmentKind.userReceipts)
    |>.segmentOpt
      (if pruneModes.receiptsLogFilter.isEmpty then none
        else some (SegmentKind.receiptsByLogs pruneModes.receiptsLogFilter))
    |>.segmentOpt (pruneModes.transactionLookup.map SegmentKind.transactionLookup)
    |>.segmentOpt (pruneModes.senderRecovery.map SegmentKind.senderRecovery)

/-! Theorems. -/

/-- C1 counterexample: with the finished-consumer channel holding
`Height(10)` and `tip = 5`, the effective tip the pruner adjusts to is
`10`, not `min 10 5 = 5` as the claim states. -/
theorem c1_effective_tip_not_min :
    adjustTipBlockNumberToFinishedExExHeight (.height 10) 5 ≠ some (min 10 5) := by
  decide

/-- C1 (amended): while the channel holds `Height(h)` the effective tip for
every decision is `h` itself: `is_pruning_needed` and a run behave exactly
as they would with no consumers at tip `h`, for the interval check, every
segment's target computation and the sidecar sweep alike. -/
theorem c1_effective_tip_is_finished_height (cfg : PrunerConfig)
    (st : PrunerState) (prev : Option Nat) (k h tip : Nat) :
    isPruningNeeded (.height h) prev k tip = isPruningNeeded .noExExs prev k h ∧
    runWithProvider cfg st (.height h) tip = runWithProvider cfg st .noExExs h :=
  ⟨rfl, rfl⟩

/-- C5: with the finished-consumer channel at `NotReady`,
`is_pruning_needed` is false and a run returns `Finished` with no
per-segment work, leaving the previous tip, the prune checkpoints and the
sidecar files untouched. -/
theorem c5_not_ready_no_work (cfg : PrunerConfig) (st : PrunerState)
    (prev : Option Nat) (k tip : Nat) :
    isPruningNeeded .notReady prev k tip = false ∧
    runWithProvider cfg st .notReady tip =
      (st, { progress := .finished, segments := [] }) :=
  ⟨rfl, rfl⟩

/-- C8: `is_pruning_needed` is true iff the saturating difference between
the adjusted tip and the stored previous tip (0 when never set) reaches the
minimum block interval; when the interval is positive, a tip adjusted below
the previous tip (a chain revert) yields false. -/
theorem c8_is_pruning_needed_iff (fe : FinishedExExHeight) (prev : Option Nat)
    (k tip a : Nat)
    (h : adjustTipBlockNumberToFinishedExExHeight fe tip = some a) :
    (isPruningNeeded fe prev k tip = true ↔ k ≤ a - prev.getD 0) ∧
    (a < prev.getD 0 → 0 < k → isPruningNeeded fe prev k tip = false) := by
  unfold isPruningNeeded
  rw [h]
  constructor
  · simp
  · intro h1 h2
    simp only [decide_eq_false_iff_not, not_le]
    omega

/-- C8 witness: with no consumers, previous tip 0 and interval 5, pruning
is needed at tip 7. -/
theorem c8_is_pruning_needed_iff_witness :
    adjustTipBlockNumberToFinishedExExHeight .noExExs 7 = some 7 ∧
    ((isPruningNeeded .noExExs (some 0) 5 7 = true ↔ 5 ≤ 7 - (some 0).getD 0) ∧
      (7 < (some 0).getD 0 → 0 < 5 → isPruningNeeded .noExExs (some 0) 5 7 = false)) :=
  ⟨rfl, c8_is_pruning_needed_iff .noExExs (some 0) 5 7 7 rfl⟩

/-- Pushing an optional segment appends its `toList`. -/
theorem SegmentSet.segmentOpt_inner (s : SegmentSet) (o : Option SegmentKind) :
    (s.segmentOpt o).inner = s.inner ++ o.toList := by
  cases o <;> simp [SegmentSet.segmentOpt, SegmentSet.segment]

/-- C9: `SegmentSet::from_components` yields exactly the ordered
collection: Headers, Transactions, Receipts, Sidecars always and in that
order, then account history and storage history when configured, then user
receipts when configured and receipts-by-logs when the log filter is
non-empty, then transaction lookup and sender recovery when configured. -/
theorem c9_segment_set_order (pm : PruneModes) :
    (SegmentSet.fromComponents pm).inner =
      [.staticFileHeaders, .staticFileTransactions, .staticFileReceipts,
        .staticFileSidecars] ++
      (pm.accountHistory.map SegmentKind.accountHistory).toList ++
      (pm.storageHistory.map SegmentKind.storageHistory).toList ++
      (pm.receipts.map SegmentKind.userReceipts).toList ++
      (if pm.receiptsLogFilter.isEmpty then []
        else [SegmentKind.receiptsByLogs pm.receiptsLogFilter]) ++
      (pm.transactionLookup.map SegmentKind.transactionLookup).toList ++
      (pm.senderRecovery.map SegmentKind.senderRecovery).toList := by
  simp only [SegmentSet.fromComponents, SegmentSet.segmentOpt_inner,
    SegmentSet.segment, List.append_assoc]
  split <;> simp

/-- Output of the segment a `pruneSegmentStep` ran. -/
def stepOutput (st : PruneSegmentsState) (segment : Segment) (toBlock : Nat) :
    SegmentOutput :=
  segment.prune (getPruneCheckpoint st.checkpoints segment.id) toBlock st.limiter

/-- A step records exactly the output of its segment. -/
theorem pruneSegmentStep_outSegments (st : PruneSegmentsState) (s : Segment)
    (tb : Nat) (pm : PruneMode) :
    (pruneSegmentStep st s tb pm).outSegments =
      st.outSegments ++ [(s.id, stepOutput st s tb)] := by
  simp only [pruneSegmentStep, stepOutput]
  split <;> rfl

/-- A step overwrites the overall progress with its segment's progress. -/
theorem pruneSegmentStep_progress (st : PruneSegmentsState) (s : Segment)
    (tb : Nat) (pm : PruneMode) :
    (pruneSegmentStep st s tb pm).progress = (stepOutput st s tb).progress := by
  simp only [pruneSegmentStep, stepOutput]
  split <;> rfl

/-- A step leaves the deleted-entries limit unchanged and raises the
deleted-entries count by exactly the segment's pruned count. -/
theorem pruneSegmentStep_limiter (st : PruneSegmentsState) (s : Segment)
    (tb : Nat) (pm : PruneMode) :
    (pruneSegmentStep st s tb pm).limiter.deletedEntriesLimit =
      st.limiter.deletedEntriesLimit ∧
    (pruneSegmentStep st s tb pm).limiter.deletedEntriesCount =
      st.limiter.deletedEntriesCount + (stepOutput st s tb).pruned := by
  simp only [pruneSegmentStep, stepOutput, PruneLimiter.incrementDeletedEntriesCountBy]
  split
  · exact ⟨rfl, rfl⟩
  · rename_i h
    refine ⟨rfl, ?_⟩
    simp only [not_lt, Nat.le_zero] at h
    simp [h]

/-- Progress of the last per-segment output in `outs`, or `d` when there is
none. -/
def lastProgress (outs : List (Nat × SegmentOutput)) (d : PruneProgress) :
    PruneProgress :=
  match outs with
  | [] => d
  | o :: rest => lastProgress rest o.2.progress

/-- Total pruned count over a list of per-segment outputs. -/
def sumPruned (outs : List (Nat × SegmentOutput)) : Nat :=
  (outs.map (fun o => o.2.pruned)).sum

/-- The loop only appends per-segment outputs, and the overall progress is
the progress of the last output it appended (or the incoming progress when
it appended none). -/
theorem pruneSegmentsLoop_progress_last (tip : Nat) (segs : List Segment) :
    ∀ st : PruneSegmentsState, ∃ l,
      (pruneSegmentsLoop tip segs st).outSegments = st.outSegments ++ l ∧
      (pruneSegmentsLoop tip segs st).progress = lastProgress l st.progress := by
  induction segs with
  | nil =>
    intro st
    exact ⟨[], by simp [pruneSegmentsLoop, lastProgress]⟩
  | cons segment rest ih =>
    intro st
    by_cases hl : st.limiter.isLimitReached
    · exact ⟨[], by simp [pruneSegmentsLoop, hl, lastProgress]⟩
    · rcases hm : segment.mode.bind (fun _ => segment.pruneTargetBlock tip) with
        _ | ⟨tb, pm⟩
      · obtain ⟨l, h1, h2⟩ := ih st
        refine ⟨l, ?_, ?_⟩ <;> simp [pruneSegmentsLoop, hl, hm, h1, h2]
      · obtain ⟨l, h1, h2⟩ := ih (pruneSegmentStep st segment tb pm)
        refine ⟨(segment.id, stepOutput st segment tb) :: l, ?_, ?_⟩
        · simp [pruneSegmentsLoop, hl, hm, h1, pruneSegmentStep_outSegments]
        · simp only [pruneSegmentsLoop, hl, Bool.false_eq_true, if_false, hm, h2,
            pruneSegmentStep_progress, lastProgress]

/-- Budget invariant of the loop: when every segment prunes no more than
the remaining budget of the snapshot it receives, the deleted-entries count
stays within the limit and grows by exactly the pruned counts of the
appended outputs. -/
theorem pruneSegmentsLoop_budget (tip L : Nat) (segs : List Segment) :
    ∀ st : PruneSegmentsState,
      (∀ s ∈ segs, ∀ cp tb lim,
        (s.prune cp tb lim).pruned ≤ lim.deletedEntriesRemaining) →
      st.limiter.deletedEntriesLimit = some L →
      st.limiter.deletedEntriesCount ≤ L →
      (pruneSegmentsLoop tip segs st).limiter.deletedEntriesCount ≤ L ∧
      sumPruned (pruneSegmentsLoop tip segs st).outSegments +
          st.limiter.deletedEntriesCount =
        sumPruned st.outSegments +
          (pruneSegmentsLoop tip segs st).limiter.deletedEntriesCount := by
  induction segs with
  | nil =>
    intro st _ _ hc
    simp [pruneSegmentsLoop, hc]
  | cons s rest ih =>
    intro st hseg hL hc
    by_cases hl : st.limiter.isLimitReached
    · simp [pruneSegmentsLoop, hl, hc]
    · rcases hm : s.mode.bind (fun _ => s.pruneTargetBlock tip) with _ | ⟨tb, pm⟩
      · have h := ih st (fun x hx => hseg x (List.mem_cons_of_mem s hx)) hL hc
        refine ⟨?_, ?_⟩ <;> simp [pruneSegmentsLoop, hl, hm, h.1, h.2]
      · have hp : (stepOutput st s tb).pruned ≤ st.limiter.deletedEntriesRemaining :=
          hseg s (List.mem_cons_self s rest) _ _ _
        have hrem : st.limiter.deletedEntriesRemaining = L - st.limiter.deletedEntriesCount := by
          unfold PruneLimiter.deletedEntriesRemaining
          rw [hL]
        obtain ⟨hsL, hsC⟩ := pruneSegmentStep_limiter st s tb pm
        have hL' : (pruneSegmentStep st s tb pm).limiter.deletedEntriesLimit = some L := by
          rw [hsL, hL]
        have hc' : (pruneSegmentStep st s tb pm).limiter.deletedEntriesCount ≤ L := by
          rw [hsC]
          omega
        have h := ih (pruneSegmentStep st s tb pm)
          (fun x hx => hseg x (List.mem_cons_of_mem s hx)) hL' hc'
        have hout : sumPruned (pruneSegmentStep st s tb pm).outSegments =
            sumPruned st.outSegments + (stepOutput st s tb).pruned := by
          rw [pruneSegmentStep_outSegments]
          simp [sumPruned]
        have hloop :
            pruneSegmentsLoop tip (s :: rest) st =
              pruneSegmentsLoop tip rest (pruneSegmentStep st s tb pm) := by
          simp [pruneSegmentsLoop, hl, hm]
        rw [hloop]
        refine ⟨h.1, ?_⟩
        omega

/-- C2 (amended): a segment's `HasMoreData` is recorded in the run's
per-segment outputs and iteration continues, but the run's overall progress
is simply the progress of the last segment that produced an output
(`Finished` when none did): an intermediate `HasMoreData` is overwritten
when a later segment reports `Finished`. -/
theorem c2_overall_progress_is_last_segment_progress (cfg : PrunerConfig)
    (st : PrunerState) (fe : FinishedExExHeight) (tip : Nat) :
    (runWithProvider cfg st fe tip).2.progress =
      lastProgress (runWithProvider cfg st fe tip).2.segments .finished := by
  unfold runWithProvider
  rcases adjustTipBlockNumberToFinishedExExHeight fe tip with _ | t
  · rfl
  · by_cases ht : t = 0
    · simp [ht, lastProgress]
    · simp only [ht, if_false]
      obtain ⟨l, h1, h2⟩ := pruneSegmentsLoop_progress_last t cfg.segments
        { checkpoints := st.checkpoints, stats := [], pruned := 0,
          progress := .finished, outSegments := [],
          limiter := PruneLimiter.setDeletedEntriesLimit {} cfg.deleteLimit }
      simp only [List.nil_append] at h1
      simp [h1, h2]

/-- Test segment that always has a prune target, prunes nothing and
reports more data left because of the time limit. -/
def segMoreData : Segment :=
  { id := 0
    mode := some .full
    pruneTargetBlock := fun _ => some (1, .full)
    prune := fun _ _ _ =>
      { progress := .hasMoreData .timeLimitReached, pruned := 0,
        checkpoint := none } }

/-- Test segment that always has a prune target, prunes nothing and
finishes. -/
def segDone : Segment :=
  { id := 1
    mode := some .full
    pruneTargetBlock := fun _ => some (1, .full)
    prune := fun _ _ _ =>
      { progress := .finished, pruned := 0, checkpoint := none } }

/-- Empty sidecar file set. -/
def emptyFiles : SidecarFiles := { main := ∅, conf := ∅, off := ∅ }

/-- Fresh pruner state: no previous tip, no checkpoints, no files. -/
def st0 : PrunerState :=
  { previousTipBlockNumber := none, checkpoints := [], files := emptyFiles }

/-- Two-segment configuration for exercising progress propagation. -/
def cfgTwoSegments : PrunerConfig :=
  { segments := [segMoreData, segDone], minBlockInterval := 5,
    deleteLimit := 10, recentSidecarsKeptBlocks := 0, blocksPerFile := 100 }

/-- C2 counterexample: a run whose first segment reports
`HasMoreData(TimeLimitReached)` while the returned overall progress is
`Finished`, because the second segment's `Finished` overwrote it. -/
theorem c2_has_more_data_not_propagated :
    ((runWithProvider cfgTwoSegments st0 .noExExs 8).2.segments.map
        (fun o => o.2.progress)) =
      [.hasMoreData .timeLimitReached, .finished] ∧
    (runWithProvider cfgTwoSegments st0 .noExExs 8).2.progress = .finished := by
  constructor <;> rfl

/-- C4: assuming every segment's `prune` call deletes no more entries than
the remaining deleted-entries budget of the limiter snapshot it receives,
the total pruned count over all per-segment outputs of a run never exceeds
the configured delete limit. -/
theorem c4_delete_limit_respected (cfg : PrunerConfig) (st : PrunerState)
    (fe : FinishedExExHeight) (tip : Nat)
    (hseg : ∀ s ∈ cfg.segments, ∀ cp tb lim,
      (s.prune cp tb lim).pruned ≤ lim.deletedEntriesRemaining) :
    sumPruned (runWithProvider cfg st fe tip).2.segments ≤ cfg.deleteLimit := by
  unfold runWithProvider
  rcases adjustTipBlockNumberToFinishedExExHeight fe tip with _ | t
  · simp [sumPruned]
  · by_cases ht : t = 0
    · simp [ht, sumPruned]
    · simp only [ht, if_false]
      have h := pruneSegmentsLoop_budget t cfg.deleteLimit cfg.segments
        { checkpoints := st.checkpoints, stats := [], pruned := 0,
          progress := .finished, outSegments := [],
          limiter := PruneLimiter.setDeletedEntriesLimit {} cfg.deleteLimit }
        hseg rfl (Nat.zero_le _)
      simp only [sumPruned, List.map_nil, List.sum_nil] at h
      simp only [sumPruned]
      omega

/-- Test segment that prunes exactly the remaining budget of the snapshot
it receives. -/
def segBudget : Segment :=
  { id := 2
    mode := some .full
    pruneTargetBlock := fun _ => some (1, .full)
    prune := fun _ _ lim =>
      { progress := .finished, pruned := lim.deletedEntriesRemaining,
        checkpoint := none } }

/-- One-segment configuration with delete limit 3. -/
def cfgBudget : PrunerConfig :=
  { segments := [segBudget], minBlockInterval := 5, deleteLimit := 3,
    recentSidecarsKeptBlocks := 0, blocksPerFile := 100 }

/-- C4 witness: a concrete run whose only segment consumes the whole
budget stays within the delete limit. -/
theorem c4_delete_limit_respected_witness :
    (∀ s ∈ cfgBudget.segments, ∀ cp tb lim,
      (s.prune cp tb lim).pruned ≤ lim.deletedEntriesRemaining) ∧
    sumPruned (runWithProvider cfgBudget st0 .noExExs 8).2.segments ≤
      cfgBudget.deleteLimit := by
  have hseg : ∀ s ∈ cfgBudget.segments, ∀ cp tb lim,
      (s.prune cp tb lim).pruned ≤ lim.deletedEntriesRemaining := by
    intro s hs cp tb lim
    simp only [cfgBudget, List.mem_singleton] at hs
    subst hs
    simp [segBudget]
  exact ⟨hseg, c4_delete_limit_respected cfgBudget st0 .noExExs 8 hseg⟩

/-- Commits contained in a writer event list, in order. -/
def commitEvents (events : List WriterEvent) : List StaticFileSegment :=
  events.filterMap fun e =>
    match e with
    | .commit s => some s
    | _ => none

/-- Commits distribute over event concatenation. -/
theorem commitEvents_append (a b : List WriterEvent) :
    commitEvents (a ++ b) = commitEvents a ++ commitEvents b := by
  simp [commitEvents]

/-- Appending transactions performs no commit. -/
theorem commitEvents_appendTransactionEvents (n : Nat) (body : List Nat) :
    commitEvents (appendTransactionEvents n body) = [] := by
  induction body generalizing n with
  | nil => rfl
  | cons tx rest ih =>
    simp only [appendTransactionEvents, commitEvents, List.filterMap_cons]
    exact ih (n + 1)

/-- Events of a static-file service call that always succeeds. -/
def writerEventsOf :
    Except Unit (List WriterEvent × Option DatabaseAction) → List WriterEvent
  | .ok (events, _) => events
  | .error _ => []

/-- C6: `log_transactions` commits its three writers in the order
Transactions, Headers, Sidecars, so in every prefix of the commit sequence
a Headers commit is preceded by the Transactions commit: a header is
visible after a crash only if its transactions are. -/
theorem c6_commit_order (block : SealedBlock) (startTxNumber td : Nat)
    (sendOk : Bool) :
    commitEvents (writerEventsOf (logTransactions block startTxNumber td sendOk)) =
      [.transactions, .headers, .sidecars] ∧
    ∀ n,
      StaticFileSegment.headers ∈
        (commitEvents
          (writerEventsOf (logTransactions block startTxNumber td sendOk))).take n →
      StaticFileSegment.transactions ∈
        (commitEvents
          (writerEventsOf (logTransactions block startTxNumber td sendOk))).take n := by
  have hc : commitEvents
      (writerEventsOf (logTransactions block startTxNumber td sendOk)) =
      [.transactions, .headers, .sidecars] := by
    simp only [logTransactions, writerEventsOf, commitEvents_append,
      commitEvents_appendTransactionEvents]
    rfl
  refine ⟨hc, ?_⟩
  rw [hc]
  intro n hn
  match n with
  | 0 => simp at hn
  | 1 => simp [List.take] at hn
  | 2 => simp [List.take]
  | (m + 3) => simp [List.take]

/-- Concrete block for the commit-order witness. -/
def blockW : SealedBlock :=
  { number := 1, hash := 2, body := [5], sidecars := none }

/-- C6 witness: in the prefix of the first two commits of a concrete
`log_transactions` call, the header commit is accompanied by the
transactions commit. -/
theorem c6_commit_order_witness :
    StaticFileSegment.headers ∈
      (commitEvents (writerEventsOf (logTransactions blockW 0 0 true))).take 2 ∧
    StaticFileSegment.transactions ∈
      (commitEvents (writerEventsOf (logTransactions blockW 0 0 true))).take 2 :=
  ⟨by decide, (c6_commit_order blockW 0 0 true).2 2 (by decide)⟩

/-- Success flag of a static-file service call. -/
def isOkResult (r : Except Unit (List WriterEvent × Option DatabaseAction)) :
    Bool :=
  match r with
  | .ok _ => true
  | .error _ => false

/-- Database action actually delivered by a static-file service call. -/
def sentActionOf :
    Except Unit (List WriterEvent × Option DatabaseAction) → Option DatabaseAction
  | .ok (_, sent) => sent
  | .error _ => none

/-- C10: `log_transactions` and `write_execution_data` report success
whether or not the follow-up database action is delivered (the send result
is discarded), so the commits can succeed while no action is enqueued and
the caller's reply channel is never completed; and `write_execution_data`
on an empty block list succeeds with no writes and no message. -/
theorem c10_send_result_discarded (block : SealedBlock) (startTxNumber td : Nat)
    (blocks : List ExecutedBlock) (hr : Option Nat) (sendOk : Bool) :
    isOkResult (logTransactions block startTxNumber td true) = true ∧
    isOkResult (logTransactions block startTxNumber td false) = true ∧
    sentActionOf (logTransactions block startTxNumber td false) = none ∧
    isOkResult (writeExecutionData blocks hr true) = true ∧
    isOkResult (writeExecutionData blocks hr false) = true ∧
    sentActionOf (writeExecutionData blocks hr false) = none ∧
    writeExecutionData [] hr sendOk = .ok ([], none) := by
  refine ⟨rfl, rfl, rfl, ?_, ?_, ?_, rfl⟩ <;> cases blocks <;> rfl

/-- The sweep loop only ever deletes main files. -/
theorem pruneAncientSidecarsLoop_main_subset (w : Nat) :
    ∀ rs fs, (pruneAncientSidecarsLoop w rs fs).main ⊆ fs.main := by
  intro rs
  induction rs using Nat.strong_induction_on with
  | _ rs ih =>
    intro fs
    rw [pruneAncientSidecarsLoop]
    split
    · exact fun x hx => hx
    · split
      · rename_i hrs _
        have hlt : findFixedRangeStart w (rs - 1) < rs := by
          have h1 : (rs - 1) / w * w ≤ rs - 1 := Nat.div_mul_le_self _ _
          simp only [findFixedRangeStart]
          omega
        exact fun x hx =>
          Finset.erase_subset _ _ (ih _ hlt (deleteStaticFiles fs _) hx)
      · exact fun x hx => hx

/-- After the sweep loop, the partition it examines first is gone. -/
theorem pruneAncientSidecarsLoop_first_not_mem (w rs : Nat) (fs : SidecarFiles)
    (h : rs ≠ 0) :
    findFixedRangeStart w (rs - 1) ∉ (pruneAncientSidecarsLoop w rs fs).main := by
  rw [pruneAncientSidecarsLoop]
  rw [if_neg h]
  split
  · intro hmem
    have hsub := pruneAncientSidecarsLoop_main_subset w
      (findFixedRangeStart w (rs - 1))
      (deleteStaticFiles fs (findFixedRangeStart w (rs - 1))) hmem
    simp [deleteStaticFiles] at hsub
  · assumption

/-- Running the sweep loop twice from the same starting partition is the
same as running it once. -/
theorem pruneAncientSidecarsLoop_idem (w rs : Nat) (fs : SidecarFiles) :
    pruneAncientSidecarsLoop w rs (pruneAncientSidecarsLoop w rs fs) =
      pruneAncientSidecarsLoop w rs fs := by
  by_cases h : rs = 0
  · conv_lhs => rw [pruneAncientSidecarsLoop]
    rw [if_pos h]
  · conv_lhs => rw [pruneAncientSidecarsLoop]
    rw [if_neg h]
    rw [if_neg (pruneAncientSidecarsLoop_first_not_mem w rs fs h)]

/-- C7: the ancient-sidecar sweep is idempotent: running
`prune_ancient_sidecars` twice in succession with the same tip leaves the
same on-disk state as running it once (the second run stops at the first
missing partition, which the first run already removed or stopped at). -/
theorem c7_ancient_sidecars_sweep_idempotent (kept w tip : Nat)
    (fs : SidecarFiles) :
    pruneAncientSidecars kept w tip (pruneAncientSidecars kept w tip fs) =
      pruneAncientSidecars kept w tip fs := by
  by_cases hk : kept = 0
  · simp [pruneAncientSidecars, hk]
  · by_cases hr : findFixedRangeStart w (tip - kept) = 0
    · simp [pruneAncientSidecars, hk, hr]
    · simp only [pruneAncientSidecars, hk, hr, if_false]
      exact pruneAncientSidecarsLoop_idem w _ fs

/-- Concrete store for the `remove_blocks_above` evaluation: blocks 0, 1, 2
hold 1, 2 and 1 transactions (transaction numbers 0; 1 and 2; 3), with
headers, sidecars, transactions and receipts present for all of them. -/
def storeW : StaticFilesStore :=
  { txCounts := [1, 2, 1], headersHighest := 2, sidecarsHighest := 2,
    txLen := 4, receiptLen := 4 }

/-- C3: evaluating `remove_blocks_above(1)` on a store whose block 1 holds
two transactions (numbers 1 and 2): headers and sidecars are correctly
truncated to block 1, but `total_txs` is computed as the difference of the
endpoints of the transaction range of blocks `1..=2` (3 - 1 = 2), so the
transactions and receipts segments are cut down to 2 entries and
transaction number 2 — which belongs to block 1, the block the call must
retain — is removed together with its receipt. -/
theorem c3_remove_blocks_above_deletes_block_n_data :
    removeBlocksAbove storeW 1 =
      { txCounts := [1, 2, 1], headersHighest := 1, sidecarsHighest := 1,
        txLen := 2, receiptLen := 2 } ∧
    firstTxNumber storeW.txCounts 1 ≤ 2 ∧
    2 < firstTxNumber storeW.txCounts 2 ∧
    (removeBlocksAbove storeW 1).txLen ≤ 2 := by
  refine ⟨?_, ?_, ?_, ?_⟩ <;> decide

end BscReth
